import Mathlib

/-!
Verification of the VOC content pipeline against its specification.

The development shallowly embeds the Python modules under `app/` that the
claims concern:

* `app/key_pool.py` (`KeyPool`): timestamps are rationals (Python floats),
  the cooldown / failure-count dictionaries become total functions with
  default 0 (matching `dict.get(key, 0)`), and the dictionary key set,
  which is fixed at construction, is represented by the `keys` list itself.
* `app/html_utils.py` and `app/extractor.py`: HTML documents are modelled
  as trees of elements and text nodes (the parsed BeautifulSoup DOM); the
  sanitising functions become tree transformations.
* `app/ai_processor.py` and `app/pipeline.py`: the external generation
  call is an oracle input; the retry loop and the article status recording
  are embedded directly.
* `app/rewriter.py` (`validate_excerpt`): regex tag stripping and length
  truncation are embedded character by character.

Python `min`/`max` on two arguments are embedded as `pymin`/`pymax`
(returning the first argument on ties, as Python does).
-/

def pymin (a b : ℚ) : ℚ := if b < a then b else a

def pymax (a b : ℚ) : ℚ := if a < b then b else a

/-- Pointwise update of a finite map represented as a total function,
mirroring a Python dict assignment `d[k] = v`. -/
def updateFun (f : String → α) (k : String) (v : α) : String → α :=
  fun x => if x = k then v else f x

/-! ## KeyPool (`app/key_pool.py`)

State of a `KeyPool` object: `keys` is `self.keys` (the credential list,
fixed after `__init__`), `cooldowns` is `self._cooldowns` (`.get(key, 0)`
defaults to 0, and the dict's key set equals the set of `keys`, so
membership tests on the dict are membership tests on `keys`), `failCounts`
is `self._fail_counts`, `index` is `self._index`.  `time.time()` is passed
explicitly as `now`. -/

structure KeyPool where
  keys : List String
  cooldowns : String → ℚ
  failCounts : String → ℕ
  index : ℕ

/-- `KeyPool.__init__`: keeps only truthy (non-empty) key strings, all
cooldowns and failure counts start at 0, cursor starts at 0. -/
def mkKeyPool (keys0 : List String) : KeyPool :=
  { keys := keys0.filter (fun k => k != "")
    cooldowns := fun _ => 0
    failCounts := fun _ => 0
    index := 0 }

/-- The scan loop in `KeyPool.next_key`: `for _ in range(len(self.keys))`,
probing `self.keys[self._index]`, returning it if its cooldown has expired
and otherwise advancing the cursor modulo the pool size.  The fuel
argument is the remaining number of loop iterations. -/
def nextKeyAux : ℕ → KeyPool → ℚ → Option String × KeyPool
  | 0, st, _ => (none, st)
  | f + 1, st, now =>
    if st.cooldowns (st.keys.getD st.index "") ≤ now
    then (some (st.keys.getD st.index ""), st)
    else nextKeyAux f { st with index := (st.index + 1) % st.keys.length } now

/-- `KeyPool.next_key`. -/
def nextKey (st : KeyPool) (now : ℚ) : Option String × KeyPool :=
  if st.keys = [] then (none, st) else nextKeyAux st.keys.length st now

/-- `KeyPool.report_failure(key, retry_delay_seconds, hard)`:
`count = fail_counts.get(key, 0) + 1`, the stored count is 0 for a hard
failure and `count` otherwise, `base = max(retry_delay_seconds, 1)`,
`delay = min(base * 2 ** (count - 1), 300)`, cooldown becomes
`now + delay`, and the cursor advances.  A key not in the pool is
ignored. -/
def reportFailure (st : KeyPool) (key : String) (retryDelaySeconds : ℚ)
    (hard : Bool) (now : ℚ) : KeyPool :=
  if key ∈ st.keys then
    let count := st.failCounts key + 1
    let base := pymax retryDelaySeconds 1
    let delay := pymin (base * 2 ^ (count - 1)) 300
    { keys := st.keys
      cooldowns := updateFun st.cooldowns key (now + delay)
      failCounts := updateFun st.failCounts key (if hard then 0 else count)
      index := (st.index + 1) % st.keys.length }
  else st

/-- `KeyPool.report_success(key)`: clears the key's cooldown and failure
count (when the key belongs to the pool) and advances the cursor. -/
def reportSuccess (st : KeyPool) (key : String) : KeyPool :=
  let st1 :=
    if key ∈ st.keys then
      { st with cooldowns := updateFun st.cooldowns key 0
                failCounts := updateFun st.failCounts key 0 }
    else st
  { st1 with index := (st1.index + 1) % st1.keys.length }

/-- `k` consecutive soft `report_failure` calls for the same key at the
given sequence of times, with no intervening `report_success`. -/
def applyFailures (st : KeyPool) (key : String) (r : ℚ) (ts : List ℚ) : KeyPool :=
  ts.foldl (fun s t => reportFailure s key r false t) st

/-- `n` cycles of `next_key()` followed by a soft `report_failure` on the
returned key (when there is one), all at a fixed time `now`.  Returns the
list of `next_key()` results in order. -/
def runCycles : ℕ → KeyPool → ℚ → ℚ → List (Option String) × KeyPool
  | 0, st, _, _ => ([], st)
  | n + 1, st, now, r =>
    let p := nextKey st now
    let st2 :=
      match p.1 with
      | some k => reportFailure p.2 k r false now
      | none => p.2
    let rest := runCycles n st2 now r
    (p.1 :: rest.1, rest.2)

/-! ### Basic lemmas about `reportFailure` -/

theorem reportFailure_keys (st : KeyPool) (key : String) (r : ℚ) (hard : Bool) (now : ℚ) :
    (reportFailure st key r hard now).keys = st.keys := by
  unfold reportFailure
  split <;> rfl

theorem reportFailure_cooldown_self (st : KeyPool) (key : String) (r : ℚ) (now : ℚ)
    (h : key ∈ st.keys) :
    (reportFailure st key r false now).cooldowns key
      = now + pymin (pymax r 1 * 2 ^ (st.failCounts key + 1 - 1)) 300 := by
  simp [reportFailure, h, updateFun]

theorem reportFailure_cooldown_other (st : KeyPool) (key k : String) (r : ℚ) (hard : Bool)
    (now : ℚ) (h : k ≠ key) :
    (reportFailure st key r hard now).cooldowns k = st.cooldowns k := by
  unfold reportFailure
  split
  · simp [updateFun, h]
  · rfl

theorem reportFailure_failCount_self (st : KeyPool) (key : String) (r : ℚ) (now : ℚ)
    (h : key ∈ st.keys) :
    (reportFailure st key r false now).failCounts key = st.failCounts key + 1 := by
  simp [reportFailure, h, updateFun]

theorem reportFailure_index (st : KeyPool) (key : String) (r : ℚ) (hard : Bool) (now : ℚ)
    (h : key ∈ st.keys) :
    (reportFailure st key r hard now).index = (st.index + 1) % st.keys.length := by
  simp [reportFailure, h]

/-! ### C1: exponential cooldown -/

theorem applyFailures_cooldown_aux :
    ∀ (ts : List ℚ) (st : KeyPool) (key : String) (r : ℚ) (t : ℚ),
      key ∈ st.keys →
      (applyFailures st key r (t :: ts)).cooldowns key
        = (t :: ts).getLast (by simp)
            + pymin (pymax r 1 * 2 ^ (st.failCounts key + (t :: ts).length - 1)) 300 := by
  intro ts
  induction ts with
  | nil =>
    intro st key r t hmem
    simp only [applyFailures, List.foldl_cons, List.foldl_nil, List.getLast_singleton,
      List.length_cons, List.length_nil]
    rw [reportFailure_cooldown_self st key r t hmem]
  | cons t' ts ih =>
    intro st key r t hmem
    have hmem1 : key ∈ (reportFailure st key r false t).keys := by
      rw [reportFailure_keys]; exact hmem
    have hstep : applyFailures st key r (t :: t' :: ts)
        = applyFailures (reportFailure st key r false t) key r (t' :: ts) := by
      simp [applyFailures]
    rw [hstep, ih (reportFailure st key r false t) key r t' hmem1,
      reportFailure_failCount_self st key r t hmem]
    have hexp : st.failCounts key + 1 + (t' :: ts).length - 1
        = st.failCounts key + (t :: t' :: ts).length - 1 := by
      simp; omega
    rw [hexp, List.getLast_cons_cons]

/-- C1 (amended): starting from a key with failure count 0, after `k`
consecutive soft `report_failure` calls for that key (times `ts`,
`k = ts.length`) with no intervening `report_success`, the key's cooldown
equals the time of the k-th call plus
`min(max(baseDelaySeconds, 1) * 2^(k-1), 300)`.  The source clamps the
base delay to at least 1 (`base = max(retry_delay_seconds, 1)`), which the
original claim omits. -/
theorem c1_cooldown_after_k_soft_failures (st : KeyPool) (key : String) (r : ℚ)
    (ts : List ℚ) (hmem : key ∈ st.keys) (h0 : st.failCounts key = 0) (hne : ts ≠ []) :
    (applyFailures st key r ts).cooldowns key
      = ts.getLast hne + pymin (pymax r 1 * 2 ^ (ts.length - 1)) 300 := by
  cases ts with
  | nil => exact absurd rfl hne
  | cons t ts' =>
    rw [applyFailures_cooldown_aux ts' st key r t hmem, h0]
    norm_num

/-- C1 witness: pool of two keys, base delay 10, six consecutive soft
failures at times 1..6; the sixth cooldown is `6 + min(10 * 2^5, 300)
= 6 + 300` (the cap applies). -/
theorem c1_cooldown_witness :
    (applyFailures (mkKeyPool ["a", "b"]) "a" 10 [1, 2, 3, 4, 5, 6]).cooldowns "a"
      = 6 + 300 := by
  have h := c1_cooldown_after_k_soft_failures (mkKeyPool ["a", "b"]) "a" 10
    [1, 2, 3, 4, 5, 6] (by simp [mkKeyPool]) (by simp [mkKeyPool]) (by simp)
  rw [h]
  norm_num [pymin, pymax]

/-- C1 counterexample to the claim as stated: with `baseDelaySeconds = 0`
and `k = 1` at time 5, the claim predicts cooldown
`5 + min(0 * 2^0, 300) = 5`, but the code clamps the base to 1 and
produces `5 + 1 = 6`. -/
theorem c1_counterexample :
    ¬ ((reportFailure (mkKeyPool ["a"]) "a" 0 false 5).cooldowns "a"
        = 5 + pymin (0 * 2 ^ (1 - 1)) 300) := by
  have h : (reportFailure (mkKeyPool ["a"]) "a" 0 false 5).cooldowns "a" = 5 + 1 := by
    rw [reportFailure_cooldown_self _ _ _ _ (by simp [mkKeyPool])]
    norm_num [mkKeyPool, pymin, pymax]
  rw [h]
  norm_num [pymin]

/-! ### The probe order of `next_key`

`next_key` probes `keys[index], keys[index+1 % N], ...` for at most `N`
steps, i.e. it scans a prefix of `keys.rotate index` and returns the first
available key in it. -/

theorem getD_eq_getElem_of_lt (l : List String) (i : ℕ) (h : i < l.length) :
    l.getD i "" = l[i] := by
  simp [List.getD_eq_getElem?_getD, List.getElem?_eq_getElem h]

theorem rotate_cons_of_lt (l : List String) (i : ℕ) (hi : i < l.length) :
    l.rotate i = l[i] :: (l.drop (i + 1) ++ l.take i) := by
  rw [List.rotate_eq_drop_append_take (le_of_lt hi), List.drop_eq_getElem_cons hi,
    List.cons_append]

theorem rotate_succ_mod_eq (l : List String) (i : ℕ) (hi : i < l.length) :
    l.rotate ((i + 1) % l.length) = (l.drop (i + 1) ++ l.take i) ++ [l[i]] := by
  rcases Nat.lt_or_ge (i + 1) l.length with h | h
  · rw [Nat.mod_eq_of_lt h, List.rotate_eq_drop_append_take (le_of_lt h), List.take_succ,
      List.getElem?_eq_getElem hi]
    simp
  · have hlen : i + 1 = l.length := by omega
    have h0 : (i + 1) % l.length = 0 := by rw [hlen, Nat.mod_self]
    have hdrop : l.drop (i + 1) = [] := by rw [hlen, List.drop_length]
    have hsucc : l.take (i + 1) = l.take i ++ [l[i]] := by
      rw [List.take_succ, List.getElem?_eq_getElem hi]
      rfl
    have htake : l.take (i + 1) = l := by rw [hlen, List.take_length]
    rw [h0, List.rotate_zero, hdrop, List.nil_append, ← hsucc, htake]

theorem window_length (l : List String) (i : ℕ) (hi : i < l.length) :
    (l.drop (i + 1) ++ l.take i).length = l.length - 1 := by
  simp [List.length_append, List.length_drop, List.length_take]
  omega

theorem nextKeyAux_succ_unfold (f : ℕ) (st : KeyPool) (now : ℚ) :
    nextKeyAux (f + 1) st now
      = if st.cooldowns (st.keys.getD st.index "") ≤ now
        then (some (st.keys.getD st.index ""), st)
        else nextKeyAux f { st with index := (st.index + 1) % st.keys.length } now := rfl

theorem nextKeyAux_fst_eq_find :
    ∀ (f : ℕ) (st : KeyPool) (now : ℚ), st.index < st.keys.length → f ≤ st.keys.length →
      (nextKeyAux f st now).1
        = ((st.keys.rotate st.index).take f).find? (fun k => decide (st.cooldowns k ≤ now)) := by
  intro f
  induction f with
  | zero => intro st now _ _; simp [nextKeyAux]
  | succ f ih =>
    intro st now hidx hf
    have hgd : st.keys.getD st.index "" = st.keys[st.index] :=
      getD_eq_getElem_of_lt st.keys st.index hidx
    have hlen0 : 0 < st.keys.length := by omega
    rw [rotate_cons_of_lt st.keys st.index hidx, List.take_succ_cons]
    by_cases hc : st.cooldowns (st.keys.getD st.index "") ≤ now
    · rw [nextKeyAux_succ_unfold, if_pos hc,
        List.find?_cons_of_pos _ (by simp only [decide_eq_true_eq]; rw [← hgd]; exact hc)]
      show some (st.keys.getD st.index "") = some st.keys[st.index]
      rw [hgd]
    · rw [nextKeyAux_succ_unfold, if_neg hc]
      have hih := ih { st with index := (st.index + 1) % st.keys.length } now
        (Nat.mod_lt _ hlen0) (show f ≤ st.keys.length by omega)
      simp only at hih
      rw [hih, rotate_succ_mod_eq st.keys st.index hidx,
        List.take_append_of_le_length
          (by rw [window_length st.keys st.index hidx]; omega),
        List.find?_cons_of_neg _ (by simp only [decide_eq_true_eq]; rw [← hgd]; exact hc)]

theorem nextKey_fst_eq_find (st : KeyPool) (now : ℚ) (hidx : st.index < st.keys.length) :
    (nextKey st now).1
      = (st.keys.rotate st.index).find? (fun k => decide (st.cooldowns k ≤ now)) := by
  have hne : st.keys ≠ [] := by
    intro h
    rw [h] at hidx
    simp at hidx
  rw [nextKey, if_neg hne, nextKeyAux_fst_eq_find st.keys.length st now hidx le_rfl,
    ← List.length_rotate st.keys st.index, List.take_length]

theorem nextKeyAux_snd_fields :
    ∀ (f : ℕ) (st : KeyPool) (now : ℚ),
      (nextKeyAux f st now).2.keys = st.keys
      ∧ (nextKeyAux f st now).2.cooldowns = st.cooldowns
      ∧ (nextKeyAux f st now).2.failCounts = st.failCounts := by
  intro f
  induction f with
  | zero => intro st now; exact ⟨rfl, rfl, rfl⟩
  | succ f ih =>
    intro st now
    by_cases hc : st.cooldowns (st.keys.getD st.index "") ≤ now
    · rw [nextKeyAux_succ_unfold, if_pos hc]
      exact ⟨rfl, rfl, rfl⟩
    · rw [nextKeyAux_succ_unfold, if_neg hc]
      exact ih { st with index := (st.index + 1) % st.keys.length } now

theorem nextKeyAux_snd_index :
    ∀ (f : ℕ) (st : KeyPool) (now : ℚ), st.index < st.keys.length →
      (nextKeyAux f st now).2.index < st.keys.length := by
  intro f
  induction f with
  | zero => intro st now h; exact h
  | succ f ih =>
    intro st now hidx
    have hlen0 : 0 < st.keys.length := by omega
    by_cases hc : st.cooldowns (st.keys.getD st.index "") ≤ now
    · rw [nextKeyAux_succ_unfold, if_pos hc]
      exact hidx
    · rw [nextKeyAux_succ_unfold, if_neg hc]
      exact ih { st with index := (st.index + 1) % st.keys.length } now (Nat.mod_lt _ hlen0)

theorem nextKeyAux_some :
    ∀ (f : ℕ) (st : KeyPool) (now : ℚ) (k : String),
      (nextKeyAux f st now).1 = some k →
      st.cooldowns k ≤ now
      ∧ (nextKeyAux f st now).2.keys.getD (nextKeyAux f st now).2.index "" = k := by
  intro f
  induction f with
  | zero => intro st now k h; exact absurd h (by simp [nextKeyAux])
  | succ f ih =>
    intro st now k h
    by_cases hc : st.cooldowns (st.keys.getD st.index "") ≤ now
    · have h1 : nextKeyAux (f + 1) st now = (some (st.keys.getD st.index ""), st) := by
        rw [nextKeyAux_succ_unfold, if_pos hc]
      rw [h1] at h
      have hk : st.keys.getD st.index "" = k := Option.some.inj h
      refine ⟨by rw [← hk]; exact hc, ?_⟩
      rw [h1]
      exact hk
    · have h1 : nextKeyAux (f + 1) st now
          = nextKeyAux f { st with index := (st.index + 1) % st.keys.length } now := by
        rw [nextKeyAux_succ_unfold, if_neg hc]
      rw [h1] at h ⊢
      exact ih { st with index := (st.index + 1) % st.keys.length } now k h

theorem nextKey_snd_fields (st : KeyPool) (now : ℚ) :
    (nextKey st now).2.keys = st.keys
    ∧ (nextKey st now).2.cooldowns = st.cooldowns
    ∧ (nextKey st now).2.failCounts = st.failCounts := by
  by_cases h : st.keys = []
  · simp [nextKey, h]
  · rw [nextKey, if_neg h]
    exact nextKeyAux_snd_fields st.keys.length st now

theorem nextKey_snd_index (st : KeyPool) (now : ℚ) (hidx : st.index < st.keys.length) :
    (nextKey st now).2.index < st.keys.length := by
  have hne : st.keys ≠ [] := by
    intro h
    rw [h] at hidx
    simp at hidx
  rw [nextKey, if_neg hne]
  exact nextKeyAux_snd_index st.keys.length st now hidx

theorem nextKey_some (st : KeyPool) (now : ℚ) (k : String)
    (h : (nextKey st now).1 = some k) :
    st.cooldowns k ≤ now
    ∧ (nextKey st now).2.keys.getD (nextKey st now).2.index "" = k := by
  by_cases hnil : st.keys = []
  · rw [nextKey, if_pos hnil] at h
    exact absurd h (by simp)
  · rw [nextKey, if_neg hnil] at h ⊢
    exact nextKeyAux_some st.keys.length st now k h

theorem nextKey_hit (st : KeyPool) (now : ℚ) (hidx : st.index < st.keys.length)
    (hav : st.cooldowns (st.keys.getD st.index "") ≤ now) :
    nextKey st now = (some (st.keys.getD st.index ""), st) := by
  have hne : st.keys ≠ [] := by
    intro h
    rw [h] at hidx
    simp at hidx
  obtain ⟨m, hm⟩ : ∃ m, st.keys.length = m + 1 := ⟨st.keys.length - 1, by omega⟩
  rw [nextKey, if_neg hne, hm, nextKeyAux_succ_unfold, if_pos hav]

/-! ### C3: pool exhaustion and single available key -/

/-- C3: if every key's cooldown lies strictly in the future, `next_key()`
returns none; and if exactly one key's cooldown has expired
(`cooldownUntil <= now`), `next_key()` returns that key. -/
theorem c3_exhaustion_and_single_available (st : KeyPool) (now : ℚ)
    (hidx : st.index < st.keys.length) :
    ((∀ k ∈ st.keys, now < st.cooldowns k) → (nextKey st now).1 = none)
    ∧ (∀ k₀ ∈ st.keys, st.cooldowns k₀ ≤ now →
        (∀ k ∈ st.keys, k ≠ k₀ → now < st.cooldowns k) → (nextKey st now).1 = some k₀) := by
  constructor
  · intro hall
    rw [nextKey_fst_eq_find st now hidx, List.find?_eq_none]
    intro x hx
    simp only [decide_eq_true_eq, not_le]
    exact hall x (List.mem_rotate.mp hx)
  · intro k₀ hk₀ hav huniq
    rw [nextKey_fst_eq_find st now hidx]
    cases hfind : (st.keys.rotate st.index).find? (fun k => decide (st.cooldowns k ≤ now)) with
    | none =>
      exfalso
      have hnone := List.find?_eq_none.mp hfind k₀ (List.mem_rotate.mpr hk₀)
      simp [hav] at hnone
    | some y =>
      have hy := List.find?_some hfind
      have hymem : y ∈ st.keys := List.mem_rotate.mp (List.mem_of_find?_eq_some hfind)
      simp only [decide_eq_true_eq] at hy
      by_cases hyk : y = k₀
      · rw [hyk]
      · exact absurd hy (not_le.mpr (huniq y hymem hyk))

/-- C3 witness: with two keys both cooling until time 10, `next_key()` at
time 5 returns none; with key "b" expired (cooldown 3) and key "a" still
cooling (cooldown 10), `next_key()` at time 5 returns "b". -/
theorem c3_witness :
    (nextKey ⟨["a", "b"], fun _ => 10, fun _ => 0, 0⟩ 5).1 = none
    ∧ (nextKey ⟨["a", "b"], fun k => if k = "b" then 3 else 10, fun _ => 0, 0⟩ 5).1
        = some "b" := by
  constructor
  · exact (c3_exhaustion_and_single_available ⟨["a", "b"], fun _ => 10, fun _ => 0, 0⟩ 5
      (by decide)).1 (by intro k _; norm_num)
  · refine (c3_exhaustion_and_single_available
      ⟨["a", "b"], fun k => if k = "b" then 3 else 10, fun _ => 0, 0⟩ 5 (by decide)).2
      "b" (by simp) (by norm_num) ?_
    intro k _ hne
    simp only [if_neg hne]
    norm_num

/-! ### C4: `next_key` is an idempotent peek -/

/-- C4: at a fixed time, two consecutive `next_key()` calls with no
intervening `report_success`/`report_failure` return the same result; the
cursor moves to a different credential only on outcome reporting. -/
theorem c4_next_key_idempotent_peek (st : KeyPool) (now : ℚ)
    (hwf : st.keys = [] ∨ st.index < st.keys.length) :
    (nextKey (nextKey st now).2 now).1 = (nextKey st now).1 := by
  rcases hwf with hnil | hidx
  · simp [nextKey, hnil]
  · have hkeys := (nextKey_snd_fields st now).1
    have hcools := (nextKey_snd_fields st now).2.1
    cases hres : (nextKey st now).1 with
    | some k =>
      obtain ⟨hcool, hat⟩ := nextKey_some st now k hres
      have hidx2 : (nextKey st now).2.index < (nextKey st now).2.keys.length := by
        rw [hkeys]
        exact nextKey_snd_index st now hidx
      have hav : (nextKey st now).2.cooldowns
          ((nextKey st now).2.keys.getD (nextKey st now).2.index "") ≤ now := by
        rw [hat, hcools]
        exact hcool
      rw [nextKey_hit (nextKey st now).2 now hidx2 hav]
      rw [hat]
    | none =>
      have hall : ∀ x ∈ st.keys, ¬ st.cooldowns x ≤ now := by
        have h := nextKey_fst_eq_find st now hidx
        rw [hres] at h
        intro x hx
        have hx2 := List.find?_eq_none.mp h.symm x (List.mem_rotate.mpr hx)
        simpa using hx2
      have hidx2 : (nextKey st now).2.index < (nextKey st now).2.keys.length := by
        rw [hkeys]
        exact nextKey_snd_index st now hidx
      rw [nextKey_fst_eq_find (nextKey st now).2 now hidx2, List.find?_eq_none]
      intro x hx
      have hxmem : x ∈ st.keys := by
        rw [← hkeys]
        exact List.mem_rotate.mp hx
      rw [hcools]
      simpa using hall x hxmem

/-- C4 witness: on a fresh two-key pool at time 0, both consecutive
`next_key()` calls return the same key. -/
theorem c4_witness :
    (nextKey (nextKey (mkKeyPool ["a", "b"]) 0).2 0).1 = (nextKey (mkKeyPool ["a", "b"]) 0).1 :=
  c4_next_key_idempotent_peek (mkKeyPool ["a", "b"]) 0 (Or.inr (by decide))

/-! ### C5: N cycles of `next_key` + `report_failure` visit each key once -/

theorem runCycles_window :
    ∀ (m : ℕ) (st : KeyPool) (now r : ℚ),
      st.keys.Nodup → st.index < st.keys.length → m ≤ st.keys.length →
      (∀ k ∈ (st.keys.rotate st.index).take m, st.cooldowns k ≤ now) →
      (runCycles m st now r).1 = ((st.keys.rotate st.index).take m).map some := by
  intro m
  induction m with
  | zero => intro st now r _ _ _ _; simp [runCycles]
  | succ m ih =>
    intro st now r hnd hidx hm hwin
    have hgd : st.keys.getD st.index "" = st.keys[st.index] :=
      getD_eq_getElem_of_lt st.keys st.index hidx
    have hrot := rotate_cons_of_lt st.keys st.index hidx
    have hwin' : ∀ k ∈ st.keys[st.index]
        :: (st.keys.drop (st.index + 1) ++ st.keys.take st.index).take m,
        st.cooldowns k ≤ now := by
      intro k hk
      apply hwin
      rw [hrot, List.take_succ_cons]
      exact hk
    have hav : st.cooldowns (st.keys.getD st.index "") ≤ now := by
      rw [hgd]
      exact hwin' _ (List.mem_cons_self _ _)
    have hhit := nextKey_hit st now hidx hav
    have hmemkey : st.keys.getD st.index "" ∈ st.keys := by
      rw [hgd]
      exact List.getElem_mem hidx
    have hstep : (runCycles (m + 1) st now r).1
        = some (st.keys.getD st.index "")
          :: (runCycles m (reportFailure st (st.keys.getD st.index "") r false now) now r).1 := by
      show ((nextKey st now).1 :: _, _).1 = _
      rw [hhit]
    rw [hstep, hrot, List.take_succ_cons, List.map_cons, ← hgd]
    congr 1
    set st2 := reportFailure st (st.keys.getD st.index "") r false now with hst2
    have hkeys2 : st2.keys = st.keys := reportFailure_keys st _ r false now
    have hindex2 : st2.index = (st.index + 1) % st.keys.length :=
      reportFailure_index st _ r false now hmemkey
    have hnd2 : st2.keys.Nodup := by rw [hkeys2]; exact hnd
    have hlen0 : 0 < st.keys.length := by omega
    have hidx2 : st2.index < st2.keys.length := by
      rw [hkeys2, hindex2]
      exact Nat.mod_lt _ hlen0
    have hm2 : m ≤ st2.keys.length := by rw [hkeys2]; omega
    have hnotmem : st.keys[st.index] ∉ st.keys.drop (st.index + 1) ++ st.keys.take st.index := by
      have hndrot : (st.keys.rotate st.index).Nodup := List.nodup_rotate.mpr hnd
      rw [hrot] at hndrot
      exact (List.nodup_cons.mp hndrot).1
    have hwin2 : ∀ k ∈ (st2.keys.rotate st2.index).take m, st2.cooldowns k ≤ now := by
      intro k hk
      rw [hkeys2, hindex2, rotate_succ_mod_eq st.keys st.index hidx,
        List.take_append_of_le_length
          (by rw [window_length st.keys st.index hidx]; omega)] at hk
      have hkne : k ≠ st.keys.getD st.index "" := by
        rw [hgd]
        intro hkeq
        exact hnotmem (hkeq ▸ List.mem_of_mem_take hk)
      rw [hst2, reportFailure_cooldown_other st _ k r false now hkne]
      exact hwin' k (List.mem_cons_of_mem _ hk)
    have hresult := ih st2 now r hnd2 hidx2 hm2 hwin2
    rw [hresult, hkeys2, hindex2, rotate_succ_mod_eq st.keys st.index hidx,
      List.take_append_of_le_length
        (by rw [window_length st.keys st.index hidx]; omega)]

theorem count_some_map (k : String) :
    ∀ l : List String, (l.map some).count (some k) = l.count k := by
  intro l
  induction l with
  | nil => rfl
  | cons a l ih =>
    by_cases h : a = k
    · subst h
      simp [List.count_cons, ih]
    · simp [List.count_cons, ih, h, Ne.symm h]

theorem count_eq_one_of_nodup_mem :
    ∀ l : List String, l.Nodup → ∀ k ∈ l, l.count k = 1 := by
  intro l
  induction l with
  | nil => intro _ k hk; cases hk
  | cons a l ih =>
    intro hnd k hk
    rw [List.count_cons]
    rcases List.mem_cons.mp hk with rfl | hk2
    · rw [List.count_eq_zero.mpr (List.nodup_cons.mp hnd).1]
      simp
    · have hne : k ≠ a := by
        rintro rfl
        exact (List.nodup_cons.mp hnd).1 hk2
      rw [ih (List.nodup_cons.mp hnd).2 k hk2]
      simp [hne, Ne.symm hne]

/-- C5: for a pool of distinct keys none of which is in cooldown, N
consecutive `next_key` + soft `report_failure` cycles (at a fixed time)
return the keys in rotation order starting at the cursor, visiting each
key exactly once. -/
theorem c5_rotation_visits_each_key_once (st : KeyPool) (now r : ℚ)
    (hnd : st.keys.Nodup) (hidx : st.index < st.keys.length)
    (hall : ∀ k ∈ st.keys, st.cooldowns k ≤ now) :
    (runCycles st.keys.length st now r).1 = (st.keys.rotate st.index).map some
    ∧ ∀ k ∈ st.keys, ((runCycles st.keys.length st now r).1).count (some k) = 1 := by
  have hfull : (st.keys.rotate st.index).take st.keys.length = st.keys.rotate st.index := by
    rw [← List.length_rotate st.keys st.index, List.take_length]
  have h1 : (runCycles st.keys.length st now r).1 = (st.keys.rotate st.index).map some := by
    rw [runCycles_window st.keys.length st now r hnd hidx le_rfl
      (by rw [hfull]; intro k hk; exact hall k (List.mem_rotate.mp hk)), hfull]
  refine ⟨h1, fun k hk => ?_⟩
  rw [h1, count_some_map k (st.keys.rotate st.index),
    (List.rotate_perm st.keys st.index).count_eq k]
  exact count_eq_one_of_nodup_mem st.keys hnd k hk

/-- C5 witness: a fresh three-key pool at time 0 yields each key exactly
once over three cycles (checked for key "b"). -/
theorem c5_witness :
    ((runCycles (mkKeyPool ["a", "b", "c"]).keys.length (mkKeyPool ["a", "b", "c"]) 0 1).1).count
      (some "b") = 1 :=
  (c5_rotation_visits_each_key_once (mkKeyPool ["a", "b", "c"]) 0 1 (by decide) (by decide)
    (by intro k _; simp [mkKeyPool])).2 "b" (by decide)

/-! ## Character-level string helpers

Python string operations used by the embedded code, working on `List Char`
(`String.data`) so that closed instances reduce in the kernel.  Recursions
that are not structural carry a fuel argument that is always instantiated
with the length of the list being consumed, which bounds the number of
steps. -/

def isPySpace (c : Char) : Bool :=
  c = ' ' || c = '\t' || c = '\n' || c = '\r' || c = Char.ofNat 11 || c = Char.ofNat 12

/-- Python `str.strip()` (ASCII whitespace). -/
def pyStrip (cs : List Char) : List Char :=
  ((cs.dropWhile isPySpace).reverse.dropWhile isPySpace).reverse

/-! ## `ContentRewriter.validate_excerpt` (`app/rewriter.py`)

`re.sub(r'<[^>]+>', '', excerpt)` removes every maximal run starting at a
`<` and ending at the first following `>` with at least one character in
between; a `<` immediately followed by `>` or with no later `>` is left in
place.  `BeautifulSoup(..., 'html.parser').get_text()` on the tag-free
remainder is modelled as decoding of the common named and numeric
character entities (the collaborating library implements the full HTML5
table; the claims do not depend on its extent). -/

/-- Splits `cs` at its first `>`: `some (pre, post)` with
`cs = pre ++ '>' :: post` and `pre` free of `>`. -/
def splitAtGt : List Char → Option (List Char × List Char)
  | [] => none
  | c :: cs =>
    if c = '>' then some ([], cs)
    else
      match splitAtGt cs with
      | none => none
      | some (pre, post) => some (c :: pre, post)

def stripTagsAux : ℕ → List Char → List Char
  | _, [] => []
  | 0, cs => cs
  | f + 1, c :: cs =>
    if c = '<' then
      match splitAtGt cs with
      | some (pre, post) => if pre = [] then c :: stripTagsAux f cs else stripTagsAux f post
      | none => c :: cs
    else c :: stripTagsAux f cs

/-- Decoding table for common named HTML entities. -/
def namedEntity (name : List Char) : Option Char :=
  if name = "amp".data then some '&'
  else if name = "lt".data then some '<'
  else if name = "gt".data then some '>'
  else if name = "quot".data then some '"'
  else if name = "apos".data then some (Char.ofNat 39)
  else if name = "nbsp".data then some (Char.ofNat 160)
  else none

/-- Splits an entity reference body `name ;` rest at the first `;`,
accepting only alphanumeric names or `#` numeric references. -/
def splitEntityBody : List Char → Option (List Char × List Char)
  | [] => none
  | c :: cs =>
    if c = ';' then some ([], cs)
    else if c.isAlphanum || c = '#' then
      match splitEntityBody cs with
      | none => none
      | some (n, rest) => some (c :: n, rest)
    else none

def digitsToNat : List Char → Option ℕ
  | [] => none
  | cs =>
    if cs.all Char.isDigit then
      some (cs.foldl (fun acc c => acc * 10 + (c.toNat - 48)) 0)
    else none

def decodeEntityName (name : List Char) : Option Char :=
  match name with
  | '#' :: ds =>
    match digitsToNat ds with
    | some n => if n < 1114112 then some (Char.ofNat n) else none
    | none => none
  | _ => namedEntity name

def decodeEntitiesAux : ℕ → List Char → List Char
  | _, [] => []
  | 0, cs => cs
  | f + 1, c :: cs =>
    if c = '&' then
      match splitEntityBody cs with
      | some (name, rest) =>
        match decodeEntityName name with
        | some ch => ch :: decodeEntitiesAux f rest
        | none => c :: decodeEntitiesAux f cs
      | none => c :: decodeEntitiesAux f cs
    else c :: decodeEntitiesAux f cs

/-- The cleaned excerpt before the length check: tags stripped, ends
trimmed, entities decoded. -/
def cleanExcerpt (s : String) : String :=
  let noTags := stripTagsAux s.data.length s.data
  let stripped := pyStrip noTags
  ⟨decodeEntitiesAux stripped.length stripped⟩

/-- `ContentRewriter.validate_excerpt`: empty input gives `""`; the
cleaned excerpt is truncated to its first 297 characters plus `"..."`
when longer than 300 characters. -/
def validate_excerpt (s : String) : String :=
  if s = "" then ""
  else
    let clean := cleanExcerpt s
    if 300 < clean.data.length then ⟨clean.data.take 297 ++ "...".data⟩ else clean

/-! ### C10 -/

/-- C10: `validate_excerpt` always returns at most 300 characters; when
the tag-stripped, entity-decoded text exceeds 300 characters the result
is its first 297 characters followed by `"..."`, and otherwise the
cleaned text is returned untruncated. -/
theorem c10_validate_excerpt_truncation (s : String) :
    (validate_excerpt s).length ≤ 300
    ∧ (300 < (cleanExcerpt s).length →
        validate_excerpt s = ⟨(cleanExcerpt s).data.take 297 ++ "...".data⟩)
    ∧ ((cleanExcerpt s).length ≤ 300 → s ≠ "" → validate_excerpt s = cleanExcerpt s) := by
  have hlen : ∀ t : String, t.length = t.data.length := fun _ => rfl
  by_cases hs : s = ""
  · subst hs
    refine ⟨by simp [validate_excerpt], ?_, ?_⟩
    · intro hlong
      exact absurd hlong (by decide)
    · intro _ hne
      exact absurd rfl hne
  · refine ⟨?_, ?_, ?_⟩
    · rw [validate_excerpt, if_neg hs]
      by_cases hlong : 300 < (cleanExcerpt s).data.length
      · rw [if_pos hlong, hlen]
        simp only [List.length_append, List.length_take, List.length_cons, List.length_nil]
        omega
      · rw [if_neg hlong, hlen]
        omega
    · intro hlong
      rw [hlen] at hlong
      rw [validate_excerpt, if_neg hs, if_pos hlong]
    · intro hshort _
      rw [hlen] at hshort
      rw [validate_excerpt, if_neg hs, if_neg (by omega)]

set_option maxRecDepth 40000 in
/-- C10 witness: a 301-character input is truncated to 297 characters
plus `"..."` (total 300); a short input with a tag and an entity is
returned cleaned and untruncated. -/
theorem c10_validate_excerpt_witness :
    validate_excerpt ⟨List.replicate 301 'a'⟩ = ⟨List.replicate 297 'a' ++ "...".data⟩
    ∧ validate_excerpt "Hi <b>there</b> &amp; hello" = "Hi there & hello" := by
  constructor
  · have h := (c10_validate_excerpt_truncation ⟨List.replicate 301 'a'⟩).2.1 (by decide)
    rw [h]
    decide
  · have h := (c10_validate_excerpt_truncation "Hi <b>there</b> &amp; hello").2.2
      (by decide) (by decide)
    rw [h]
    decide

/-! ## `AIProcessor.rewrite_content` (`app/ai_processor.py`)

The generation endpoint (`self.model.generate_content` followed by
`_parse_response`) is an external collaborator plus JSON parsing; its
per-iteration outcome is supplied as an oracle `gen`:

* `raises msg`  — anything inside the `try` block raised, `str(e) = msg`
  (this also covers `_parse_response` returning `None`, which raises
  `AIProcessorError` with a fixed message);
* `parsed data` — `_parse_response` returned the dict `data`.

The loop `for _ in range(len(self.api_keys))` is embedded with the
remaining iteration count as fuel, threading the attempt counter, the
current key index (`self.current_key_index`, starting at 0 on a fresh
processor) and `last_error`. -/

inductive AttemptOutcome where
  | raises (msg : String)
  | parsed (data : List (String × String))

/-- The message of the `AIProcessorError` raised when `_parse_response`
returns `None`. -/
def parseFailMsg : String := "Failed to parse or validate AI response. See logs for details."

/-- The reason returned when the loop completes without success. -/
def allKeysFailedMsg (category lastError : String) : String :=
  "All API keys for category '" ++ category ++ "' failed. Last error: " ++ lastError

def rewriteLoop (category : String) (numKeys : ℕ) (gen : ℕ → AttemptOutcome) :
    ℕ → ℕ → ℕ → String → Option (List (String × String)) × Option String
  | 0, _, _, lastError => (none, some (allKeysFailedMsg category lastError))
  | fuel + 1, t, idx, _lastError =>
    match gen t with
    | .parsed data =>
      match data.lookup "erro" with
      | some e => (none, some e)
      | none => (some data, none)
    | .raises msg =>
      if idx + 1 < numKeys then rewriteLoop category numKeys gen fuel (t + 1) (idx + 1) msg
      else (none, some (allKeysFailedMsg category msg))

/-- `AIProcessor.rewrite_content` on a fresh processor (key index 0),
abstracting over the generation outcomes. -/
def rewriteContent (category : String) (apiKeys : List String)
    (gen : ℕ → AttemptOutcome) : Option (List (String × String)) × Option String :=
  rewriteLoop category apiKeys.length gen apiKeys.length 0 0 "Unknown error"

/-- `needle in haystack` on Python strings. -/
def containsSubList (needle : List Char) : List Char → Bool
  | [] => needle.isEmpty
  | c :: cs => needle.isPrefixOf (c :: cs) || containsSubList needle cs

def strContains (haystack needle : String) : Bool :=
  containsSubList needle.data haystack.data

/-! ### C8 -/

/-- C8 (code bug): when the retry loop of `rewrite_content` completes
without a successful rewrite, the failure reason always has the single
format `All API keys for category '...' failed. Last error: ...` —
there is no reason value distinguishing "pool exhausted (all keys cooling
down)" (the processor holds no cooldown state at all), and the reason
never contains the substring `pool is exhausted` that the caller
`app/pipeline.py` tests for.  Evaluated here on two unsuccessful runs
(every attempt raising a quota error; every attempt failing to parse):
both produce the same single reason format. -/
theorem c8_failure_reasons_not_distinguished :
    rewriteContent "movies" ["k1", "k2"] (fun _ => .raises "429 quota exceeded")
      = (none, some "All API keys for category 'movies' failed. Last error: 429 quota exceeded")
    ∧ rewriteContent "movies" ["k1", "k2"] (fun _ => .raises parseFailMsg)
      = (none, some (allKeysFailedMsg "movies" parseFailMsg))
    ∧ strContains
        "All API keys for category 'movies' failed. Last error: 429 quota exceeded"
        "pool is exhausted" = false := by
  refine ⟨by decide, by decide, by decide⟩

/-! ## Article status recording in `app/pipeline.py` (lines 95-105)

When `rewrite_content` returns no data, the pipeline computes
`reason = failure_reason or "AI processing failed"`, branches on
`"pool is exhausted" in reason` purely for the log message, and in both
branches calls `db.update_article_status(article_db_id, 'FAILED',
reason=reason)`. -/

structure ArticleStatusUpdate where
  status : String
  reason : String
  loggedPoolExhausted : Bool

def recordAIFailure (failureReason : Option String) : ArticleStatusUpdate :=
  let reason :=
    match failureReason with
    | some fr => if fr = "" then "AI processing failed" else fr
    | none => "AI processing failed"
  if strContains reason "pool is exhausted"
  then { status := "FAILED", reason := reason, loggedPoolExhausted := true }
  else { status := "FAILED", reason := reason, loggedPoolExhausted := false }

/-! ### C9 -/

/-- C9 counterexample: on an AI failure whose reason signals pool
exhaustion, `app/pipeline.py` records the article status `FAILED` (taking
the pool-exhausted log branch), not a deferred/retryable status. -/
theorem c9_counterexample :
    (recordAIFailure (some "The movies pool is exhausted")).status = "FAILED"
    ∧ (recordAIFailure (some "The movies pool is exhausted")).loggedPoolExhausted = true
    ∧ (recordAIFailure (some "The movies pool is exhausted")).status ≠ "DEFERRED" := by
  refine ⟨by decide, by decide, by decide⟩

/-- C9 (amended): for every AI failure reason — pool exhaustion
included — `app/pipeline.py` records the article as `FAILED` with the
reason string; the pool-exhaustion check only selects a different log
message, and no deferred status is ever recorded by this handler. -/
theorem c9_always_failed_never_deferred (failureReason : Option String) :
    (recordAIFailure failureReason).status = "FAILED"
    ∧ (recordAIFailure failureReason).status ≠ "DEFERRED" := by
  have hbranch : ∀ reason : String,
      (if strContains reason "pool is exhausted" = true then
        ({ status := "FAILED", reason := reason, loggedPoolExhausted := true }
          : ArticleStatusUpdate)
      else { status := "FAILED", reason := reason, loggedPoolExhausted := false }).status
        = "FAILED" := by
    intro reason
    split <;> rfl
  have hs : (recordAIFailure failureReason).status = "FAILED" := by
    unfold recordAIFailure
    cases failureReason with
    | none => exact hbranch _
    | some fr => exact hbranch _
  exact ⟨hs, by rw [hs]; decide⟩

/-! ## HTML document model

The parsed BeautifulSoup DOM is modelled as a tree of element and text
nodes.  `HForest` is a sibling list (the contents of `<body>` at the top
level); element attributes are an association list mirroring the tag's
attribute dict.  The inductives are mutual (rather than nesting
`List HNode`) so that all operations are structurally recursive and
reduce in the kernel. -/

mutual
inductive HNode where
  | text (s : String)
  | elem (tag : String) (attrs : List (String × String)) (children : HForest)
inductive HForest where
  | nil : HForest
  | cons (n : HNode) (rest : HForest) : HForest
end

/-- Sibling-list concatenation. -/
def happend : HForest → HForest → HForest
  | .nil, r => r
  | .cons n rest, r => .cons n (happend rest r)

/-- `tag.get(name)` on the attribute dict. -/
def getAttr (attrs : List (String × String)) (name : String) : Option String :=
  attrs.lookup name

/-- Lower-casing through `Char.toLower` (ASCII; Python `str.lower`). -/
def lowerS (s : String) : String := ⟨s.data.map Char.toLower⟩

def pyStripS (s : String) : String := ⟨pyStrip s.data⟩

def startsWithS (s pre : String) : Bool := pre.data.isPrefixOf s.data

/-- Python `str.split(sep)` for a one-character separator. -/
def splitOnCharF (sep : Char) : ℕ → List Char → List (List Char)
  | _, [] => [[]]
  | 0, cs => [cs]
  | f + 1, c :: cs =>
    if c = sep then [] :: splitOnCharF sep f cs
    else
      match splitOnCharF sep f cs with
      | [] => [[c]]
      | g :: gs => (c :: g) :: gs

/-- Python `str.split()` (whitespace runs, empties dropped). -/
def splitWsF : ℕ → List Char → List (List Char)
  | _, [] => []
  | 0, cs => [cs]
  | f + 1, c :: cs =>
    if isPySpace c then splitWsF f cs
    else
      (c :: cs).takeWhile (fun d => !isPySpace d)
        :: splitWsF f ((c :: cs).dropWhile (fun d => !isPySpace d))

/-- `sep.join(parts)`. -/
def joinSep (sep : List Char) : List (List Char) → List Char
  | [] => []
  | [x] => x
  | x :: y :: rest => x ++ sep ++ joinSep sep (y :: rest)

/-! ## Image merge (`merge_images_into_content`, `app/html_utils.py`) -/

/-- `_norm_key`: `(u.strip().rstrip("/")).lower()`. -/
def norm_key (u : String) : String :=
  ⟨(((pyStrip u.data).reverse.dropWhile (fun c => c = '/')).reverse).map Char.toLower⟩

/-! Count of `<img>` elements in a node / forest. -/
mutual
def imgCountN : HNode → ℕ
  | .text _ => 0
  | .elem tag _ cs => (if tag = "img" then 1 else 0) + imgCountF cs
def imgCountF : HForest → ℕ
  | .nil => 0
  | .cons n rest => imgCountN n + imgCountF rest
end

/-- One `srcset` chunk's contribution: `chunk.strip().split()[0]`
normalised.  The indexing raises `IndexError` when the chunk is empty or
whitespace-only (e.g. after a trailing comma); `none` models the raise. -/
def srcsetChunkKey (chunk : List Char) : Option String :=
  match splitWsF (pyStrip chunk).length (pyStrip chunk) with
  | [] => none
  | u :: _ => some (norm_key ⟨u⟩)

/-- Keys of all `srcset` chunks in order; a raise anywhere propagates. -/
def collectChunkKeys : List (List Char) → Option (List String)
  | [] => some []
  | chunk :: more =>
    match srcsetChunkKey chunk, collectChunkKeys more with
    | some k, some ks => some (k :: ks)
    | _, _ => none

/-- Normalised keys contributed by one `<img>` tag: its stripped
non-empty `src`, plus the first token of every `srcset` chunk; `none`
when a whitespace-only chunk makes the source raise `IndexError`. -/
def imgKeys (attrs : List (String × String)) : Option (List String) :=
  let src := pyStripS ((getAttr attrs "src").getD "")
  let srcKeys := if src = "" then [] else [norm_key src]
  match getAttr attrs "srcset" with
  | some ss =>
    if ss = "" then some srcKeys
    else
      match collectChunkKeys (splitOnCharF ',' ss.data.length ss.data) with
      | none => none
      | some ks => some (srcKeys ++ ks)
  | none => some srcKeys

/-! The `present` set: normalised URLs of images already in the document
(collected in document order; only membership matters).  A raised
`IndexError` from any image's `srcset` propagates (`none`). -/
mutual
def presentKeysN : HNode → Option (List String)
  | .text _ => some []
  | .elem tag attrs cs =>
    match (if tag = "img" then imgKeys attrs else some []) with
    | none => none
    | some ks =>
      match presentKeysF cs with
      | none => none
      | some ks' => some (ks ++ ks')
def presentKeysF : HForest → Option (List String)
  | .nil => some []
  | .cons n rest =>
    match presentKeysN n with
    | none => none
    | some ks =>
      match presentKeysF rest with
      | none => none
      | some ks' => some (ks ++ ks')
end

/-- The `to_add` selection loop: keep candidates whose non-empty
normalised key is not already present, stopping once `max_images` have
been taken (`if len(to_add) >= max_images: break` runs after the append,
so even `max_images = 0` lets one candidate through). `n` is
`len(to_add)` so far. -/
def selectToAdd (present : List String) (maxImages : ℕ) : List String → ℕ → List String
  | [], _ => []
  | u :: us, n =>
    if norm_key u = "" || present.contains (norm_key u) then selectToAdd present maxImages us n
    else if maxImages ≤ n + 1 then [u]
    else u :: selectToAdd present maxImages us (n + 1)

/-- `<figure><img src=u></figure>` as built by the injection loop. -/
def mkFigure (u : String) : HNode :=
  .elem "figure" [] (.cons (.elem "img" [("src", u)] .nil) .nil)

def figsForest : List String → HForest
  | [] => .nil
  | u :: us => .cons (mkFigure u) (figsForest us)

def isPElem : HNode → Bool
  | .text _ => false
  | .elem tag _ _ => tag = "p"

/-! Splices `figs` directly after the first `<p>` in document (preorder)
order, mirroring `soup.find("p")` followed by successive
`insert_after`; `none` when the document has no `<p>`. -/
mutual
def insertFigsN (figs : HForest) : HNode → Option HNode
  | .text _ => none
  | .elem tag attrs cs =>
    match insertFigsF figs cs with
    | some cs' => some (.elem tag attrs cs')
    | none => none
def insertFigsF (figs : HForest) : HForest → Option HForest
  | .nil => none
  | .cons n rest =>
    if isPElem n then some (.cons n (happend figs rest))
    else
      match insertFigsN figs n with
      | some n' => some (.cons n' rest)
      | none =>
        match insertFigsF figs rest with
        | some rest' => some (.cons n rest')
        | none => none
end

/-- `merge_images_into_content(content_html, image_urls, max_images)`:
collects present image URLs, selects up to `max_images` new candidates,
and injects them as figures after the first paragraph (or at the end when
there is no paragraph).  When nothing is to be added the document is
returned unchanged; `none` is the `IndexError` the collection raises on a
malformed `srcset`. -/
def merge_images_into_content (doc : HForest) (imageUrls : List String)
    (maxImages : ℕ) : Option HForest :=
  match presentKeysF doc with
  | none => none
  | some present =>
    let toAdd := selectToAdd present maxImages imageUrls 0
    if toAdd = [] then some doc
    else
      some (match insertFigsF (figsForest toAdd) doc with
        | some doc' => doc'
        | none => happend doc (figsForest toAdd))

/-! ### C2 lemmas -/

theorem selectToAdd_eq_nil (present : List String) (maxImages : ℕ) :
    ∀ (us : List String) (n : ℕ),
      (∀ u ∈ us, norm_key u = "" ∨ present.contains (norm_key u) = true) →
      selectToAdd present maxImages us n = [] := by
  intro us
  induction us with
  | nil => intro n _; rfl
  | cons u us ih =>
    intro n h
    have hcond : (norm_key u = "" || present.contains (norm_key u)) = true := by
      rcases h u (List.mem_cons_self u us) with h1 | h1
      · simp [h1]
      · rw [h1]
        simp
    show selectToAdd present maxImages (u :: us) n = []
    rw [selectToAdd, if_pos hcond]
    exact ih n (fun v hv => h v (List.mem_cons_of_mem u hv))

theorem selectToAdd_not_present (present : List String) (maxImages : ℕ) :
    ∀ (us : List String) (n : ℕ) (u : String), u ∈ selectToAdd present maxImages us n →
      present.contains (norm_key u) = false := by
  intro us
  induction us with
  | nil => intro n u h; exact absurd h (by simp [selectToAdd])
  | cons v us ih =>
    intro n u h
    rw [selectToAdd] at h
    by_cases hcond : (norm_key v = "" || present.contains (norm_key v)) = true
    · rw [if_pos hcond] at h
      exact ih n u h
    · rw [if_neg hcond] at h
      have hv : present.contains (norm_key v) = false := by
        rcases Bool.or_eq_false_iff.mp (Bool.eq_false_iff.mpr hcond) with ⟨_, h2⟩
        exact h2
      by_cases hmax : maxImages ≤ n + 1
      · rw [if_pos hmax] at h
        rcases List.mem_singleton.mp h with rfl
        exact hv
      · rw [if_neg hmax] at h
        rcases List.mem_cons.mp h with rfl | h2
        · exact hv
        · exact ih (n + 1) u h2

theorem selectToAdd_length_empty_present (maxImages : ℕ) :
    ∀ (us : List String) (n : ℕ), (∀ u ∈ us, norm_key u ≠ "") → n < maxImages →
      (selectToAdd [] maxImages us n).length = min (maxImages - n) us.length := by
  intro us
  induction us with
  | nil => intro n _ _; simp [selectToAdd]
  | cons u us ih =>
    intro n h hn
    have hcond : (norm_key u = "" || List.contains [] (norm_key u)) = false := by
      simp [h u (List.mem_cons_self u us)]
    show (selectToAdd [] maxImages (u :: us) n).length = min (maxImages - n) (u :: us).length
    rw [selectToAdd, if_neg (by rw [hcond]; simp)]
    by_cases hmax : maxImages ≤ n + 1
    · rw [if_pos hmax]
      have : maxImages - n = 1 := by omega
      simp [this]
    · rw [if_neg hmax]
      have hrec := ih (n + 1) (fun v hv => h v (List.mem_cons_of_mem u hv)) (by omega)
      simp only [List.length_cons, hrec]
      omega

mutual
theorem presentKeysN_eq_nil : ∀ n : HNode, imgCountN n = 0 → presentKeysN n = some []
  | .text _, _ => rfl
  | .elem tag attrs cs, h => by
    have h' : (if tag = "img" then 1 else 0) + imgCountF cs = 0 := h
    by_cases htag : tag = "img"
    · rw [if_pos htag] at h'
      omega
    · have h2 : imgCountF cs = 0 := by
        rw [if_neg htag] at h'
        omega
      show (match (if tag = "img" then imgKeys attrs else some []) with
        | none => none
        | some ks =>
          match presentKeysF cs with
          | none => none
          | some ks' => some (ks ++ ks')) = some []
      rw [if_neg htag, presentKeysF_eq_nil cs h2]
      rfl
theorem presentKeysF_eq_nil : ∀ f : HForest, imgCountF f = 0 → presentKeysF f = some []
  | .nil, _ => rfl
  | .cons n rest, h => by
    have h' : imgCountN n + imgCountF rest = 0 := h
    show (match presentKeysN n with
      | none => none
      | some ks =>
        match presentKeysF rest with
        | none => none
        | some ks' => some (ks ++ ks')) = some []
    rw [presentKeysN_eq_nil n (by omega), presentKeysF_eq_nil rest (by omega)]
    rfl
end

theorem imgCountF_happend : ∀ a b : HForest,
    imgCountF (happend a b) = imgCountF a + imgCountF b
  | .nil, b => by
    show imgCountF b = imgCountF HForest.nil + imgCountF b
    show imgCountF b = 0 + imgCountF b
    omega
  | .cons n rest, b => by
    show imgCountN n + imgCountF (happend rest b) = imgCountN n + imgCountF rest + imgCountF b
    rw [imgCountF_happend rest b]
    omega

theorem imgCountF_figsForest : ∀ us : List String, imgCountF (figsForest us) = us.length
  | [] => rfl
  | u :: us => by
    show imgCountN (mkFigure u) + imgCountF (figsForest us) = (u :: us).length
    have h1 : imgCountN (mkFigure u) = 1 := rfl
    rw [h1, imgCountF_figsForest us, List.length_cons]
    omega

mutual
theorem imgCount_insertFigsN : ∀ (figs : HForest) (n : HNode) (n' : HNode),
    insertFigsN figs n = some n' → imgCountN n' = imgCountN n + imgCountF figs
  | figs, .text s, n', h => absurd h (by simp [insertFigsN])
  | figs, .elem tag attrs cs, n', h => by
    have hunfold : insertFigsN figs (.elem tag attrs cs)
        = match insertFigsF figs cs with
          | some cs' => some (.elem tag attrs cs')
          | none => none := rfl
    rw [hunfold] at h
    cases hcs : insertFigsF figs cs with
    | none =>
      rw [hcs] at h
      exact absurd h (by simp)
    | some cs' =>
      rw [hcs] at h
      have hn' : n' = .elem tag attrs cs' := by
        have := Option.some.inj h
        exact this.symm
      subst hn'
      show (if tag = "img" then 1 else 0) + imgCountF cs'
        = (if tag = "img" then 1 else 0) + imgCountF cs + imgCountF figs
      rw [imgCount_insertFigsF figs cs cs' hcs]
      omega
theorem imgCount_insertFigsF : ∀ (figs : HForest) (f : HForest) (f' : HForest),
    insertFigsF figs f = some f' → imgCountF f' = imgCountF f + imgCountF figs
  | figs, .nil, f', h => absurd h (by simp [insertFigsF])
  | figs, .cons n rest, f', h => by
    have hunfold : insertFigsF figs (.cons n rest)
        = if isPElem n then some (.cons n (happend figs rest))
          else
            match insertFigsN figs n with
            | some n' => some (.cons n' rest)
            | none =>
              match insertFigsF figs rest with
              | some rest' => some (.cons n rest')
              | none => none := rfl
    rw [hunfold] at h
    by_cases hp : isPElem n = true
    · rw [if_pos hp] at h
      have hf' : f' = .cons n (happend figs rest) := (Option.some.inj h).symm
      subst hf'
      show imgCountN n + imgCountF (happend figs rest)
        = imgCountN n + imgCountF rest + imgCountF figs
      rw [imgCountF_happend figs rest]
      omega
    · rw [if_neg hp] at h
      cases hn : insertFigsN figs n with
      | some n' =>
        rw [hn] at h
        have hf' : f' = .cons n' rest := (Option.some.inj h).symm
        subst hf'
        show imgCountN n' + imgCountF rest = imgCountN n + imgCountF rest + imgCountF figs
        rw [imgCount_insertFigsN figs n n' hn]
        omega
      | none =>
        rw [hn] at h
        cases hrest : insertFigsF figs rest with
        | some rest' =>
          rw [hrest] at h
          have hf' : f' = .cons n rest' := (Option.some.inj h).symm
          subst hf'
          show imgCountN n + imgCountF rest' = imgCountN n + imgCountF rest + imgCountF figs
          rw [imgCount_insertFigsF figs rest rest' hrest]
          omega
        | none =>
          rw [hrest] at h
          exact absurd h (by simp)
end

/-! ### C2 -/

theorem selectToAdd_ne_nil (present : List String) (maxImages : ℕ) :
    ∀ (us : List String) (n : ℕ) (u : String), u ∈ us → norm_key u ≠ "" →
      present.contains (norm_key u) = false →
      selectToAdd present maxImages us n ≠ [] := by
  intro us
  induction us with
  | nil => intro n u hu; cases hu
  | cons v us ih =>
    intro n u hu hne hnc
    rw [selectToAdd]
    by_cases hcond : (norm_key v = "" || present.contains (norm_key v)) = true
    · rw [if_pos hcond]
      have huv : u ≠ v := by
        rintro rfl
        rcases (Bool.or_eq_true _ _).mp hcond with h1 | h1
        · exact hne (by simpa using h1)
        · rw [hnc] at h1
          exact Bool.false_ne_true h1
      have hu' : u ∈ us := by
        rcases List.mem_cons.mp hu with rfl | h2
        · exact absurd rfl huv
        · exact h2
      exact ih n u hu' hne hnc
    · rw [if_neg hcond]
      by_cases hmax : maxImages ≤ n + 1
      · rw [if_pos hmax]
        simp
      · rw [if_neg hmax]
        simp

theorem imgCount_mergeResult (toAdd : List String) (doc : HForest) :
    imgCountF (match insertFigsF (figsForest toAdd) doc with
      | some doc' => doc'
      | none => happend doc (figsForest toAdd)) = imgCountF doc + toAdd.length := by
  cases hins : insertFigsF (figsForest toAdd) doc with
  | some doc' =>
    show imgCountF doc' = imgCountF doc + toAdd.length
    rw [imgCount_insertFigsF (figsForest toAdd) doc doc' hins, imgCountF_figsForest]
  | none =>
    show imgCountF (happend doc (figsForest toAdd)) = imgCountF doc + toAdd.length
    rw [imgCountF_happend doc (figsForest toAdd), imgCountF_figsForest]

/-- C2 (amended): `merge_images_into_content` keeps existing images but
still injects non-duplicate candidates even when the document already
contains images; its present-URL collection raises `IndexError` on a
`srcset` with an empty or whitespace-only chunk (modelled as `none`).
When the collection succeeds: (i) the output is unchanged **iff** every
candidate's normalised key is empty or already present (case-insensitive,
trailing-slash-normalised); (ii) no injected candidate duplicates an
already-present URL; (iii) with zero existing images, 5 candidate URLs
with non-empty normalised keys and `maxInjected = 3`, the output contains
exactly 3 image elements. -/
theorem c2_merge_images (doc : HForest) (cands : List String) (maxImages : ℕ) :
    (∀ present, presentKeysF doc = some present →
      ((merge_images_into_content doc cands maxImages = some doc
          ↔ ∀ u ∈ cands, norm_key u = "" ∨ present.contains (norm_key u) = true)
        ∧ ∀ u ∈ selectToAdd present maxImages cands 0,
            present.contains (norm_key u) = false))
    ∧ (imgCountF doc = 0 → cands.length = 5 → (∀ u ∈ cands, norm_key u ≠ "") →
        ∃ doc', merge_images_into_content doc cands 3 = some doc'
          ∧ imgCountF doc' = 3) := by
  have hmerge : ∀ (present : List String), presentKeysF doc = some present → ∀ maxI,
      merge_images_into_content doc cands maxI
        = if selectToAdd present maxI cands 0 = [] then some doc
          else
            some (match insertFigsF (figsForest (selectToAdd present maxI cands 0)) doc with
              | some doc' => doc'
              | none => happend doc (figsForest (selectToAdd present maxI cands 0))) := by
    intro present hp maxI
    unfold merge_images_into_content
    rw [hp]
  constructor
  · intro present hp
    refine ⟨⟨?_, ?_⟩, ?_⟩
    · intro heq
      by_contra hnall
      push_neg at hnall
      obtain ⟨u, hu, hne, hncne⟩ := hnall
      have hnc : present.contains (norm_key u) = false := by
        cases hb : present.contains (norm_key u)
        · rfl
        · exact absurd hb hncne
      have htoAdd := selectToAdd_ne_nil present maxImages cands 0 u hu hne hnc
      rw [hmerge present hp maxImages, if_neg htoAdd] at heq
      have hdoc := Option.some.inj heq
      have hcount := imgCount_mergeResult (selectToAdd present maxImages cands 0) doc
      rw [hdoc] at hcount
      have hlen0 : (selectToAdd present maxImages cands 0).length = 0 := by omega
      exact htoAdd (List.length_eq_zero.mp hlen0)
    · intro hall
      rw [hmerge present hp maxImages,
        if_pos (selectToAdd_eq_nil present maxImages cands 0 hall)]
    · exact fun u hu => selectToAdd_not_present present maxImages cands 0 u hu
  · intro h0 h5 hne
    have hp : presentKeysF doc = some [] := presentKeysF_eq_nil doc h0
    have hlen : (selectToAdd [] 3 cands 0).length = 3 := by
      rw [selectToAdd_length_empty_present 3 cands 0 hne (by omega), h5]
      omega
    have htoAdd : selectToAdd ([] : List String) 3 cands 0 ≠ [] := by
      intro he
      rw [he] at hlen
      simp at hlen
    refine ⟨(match insertFigsF (figsForest (selectToAdd [] 3 cands 0)) doc with
      | some doc' => doc'
      | none => happend doc (figsForest (selectToAdd [] 3 cands 0))), ?_, ?_⟩
    · rw [hmerge [] hp 3, if_neg htoAdd]
    · rw [imgCount_mergeResult (selectToAdd [] 3 cands 0) doc, h0, hlen]

/-- C2 counterexample to the claim as stated: a document that already
contains an image is not returned unchanged — a fresh candidate URL is
still injected as a new figure. -/
theorem c2_counterexample :
    merge_images_into_content
      (.cons (.elem "img" [("src", "http://cdn/a.jpg")] .nil) .nil)
      ["http://cdn/b.jpg"] 3
      ≠ some (.cons (.elem "img" [("src", "http://cdn/a.jpg")] .nil) .nil) := by
  intro h
  have h2 : (merge_images_into_content
      (.cons (.elem "img" [("src", "http://cdn/a.jpg")] .nil) .nil)
      ["http://cdn/b.jpg"] 3).map imgCountF = some 2 := rfl
  rw [h] at h2
  exact absurd h2 (by decide)

/-- C2 witness: a candidate differing from the present image URL only in
case and a trailing slash is deduplicated and the document is unchanged;
with zero images, 5 fresh candidates and `maxInjected = 3`, exactly 3
images are injected. -/
theorem c2_witness :
    merge_images_into_content
      (.cons (.elem "img" [("src", "http://cdn/a.jpg")] .nil) .nil) ["http://cdn/A.jpg/"] 3
      = some (.cons (.elem "img" [("src", "http://cdn/a.jpg")] .nil) .nil)
    ∧ (merge_images_into_content
        (.cons (.elem "p" [] (.cons (.text "hello") .nil)) .nil)
        ["u1", "u2", "u3", "u4", "u5"] 3).map imgCountF = some 3 := by
  constructor
  · exact (((c2_merge_images (.cons (.elem "img" [("src", "http://cdn/a.jpg")] .nil) .nil)
      ["http://cdn/A.jpg/"] 3).1 ["http://cdn/a.jpg"] (by decide)).1).mpr (by decide)
  · obtain ⟨doc', heq, hcount⟩ := (c2_merge_images
      (.cons (.elem "p" [] (.cons (.text "hello") .nil)) .nil)
      ["u1", "u2", "u3", "u4", "u5"] 3).2 (by decide) (by decide) (by decide)
    rw [heq, Option.map_some', hcount]

/-! ## YouTube URL recognition (`_yt_id_from_url`, `app/html_utils.py`)

`urllib.parse.urlparse` is modelled for absolute URLs: a netloc is parsed
after `scheme://` (or a leading `//`); the hostname is the netloc without
userinfo and port, lower-cased; path and query follow.  For inputs with
no netloc the hostname is empty, so the allow-list check fails exactly as
`(u.hostname or "") not in YOUTUBE_HOSTS` does, and the path is then
never consulted.  Percent-decoding is not modelled (the claims' URLs use
none). -/

def YOUTUBE_HOSTS : List String :=
  ["youtube.com", "www.youtube.com", "m.youtube.com", "youtu.be", "www.youtu.be"]

def schemeOk (cs : List Char) : Bool :=
  match cs with
  | [] => false
  | c :: rest => c.isAlpha && rest.all (fun d => d.isAlphanum || d == '+' || d == '-' || d == '.')

/-- The text following the authority marker `//`, when the URL has a
netloc. -/
def netlocAndRest (cs : List Char) : Option (List Char) :=
  if "//".data.isPrefixOf cs then some (cs.drop 2)
  else
    let scheme := cs.takeWhile (fun c => !(c == ':' || c == '/' || c == '?' || c == '#'))
    match cs.drop scheme.length with
    | ':' :: r2 =>
      if schemeOk scheme && "//".data.isPrefixOf r2 then some (r2.drop 2) else none
    | _ => none

def netlocOf (rest : List Char) : List Char :=
  rest.takeWhile (fun c => !(c == '/' || c == '?' || c == '#'))

/-- Hostname from a netloc: drop userinfo (`...@`), drop the port, lower
case. -/
def hostOfNetloc (netloc : List Char) : List Char :=
  let afterAt := (splitOnCharF '@' netloc.length netloc).getLastD []
  (afterAt.takeWhile (fun c => !(c == ':'))).map Char.toLower

def urlHostname (u : String) : String :=
  match netlocAndRest u.data with
  | none => ""
  | some rest => ⟨hostOfNetloc (netlocOf rest)⟩

def urlPath (u : String) : List Char :=
  match netlocAndRest u.data with
  | none => []
  | some rest => (rest.drop (netlocOf rest).length).takeWhile (fun c => !(c == '?' || c == '#'))

def urlQuery (u : String) : List Char :=
  match netlocAndRest u.data with
  | none => []
  | some rest =>
    let after := rest.drop (netlocOf rest).length
    match after.drop ((after.takeWhile (fun c => !(c == '?' || c == '#'))).length) with
    | '?' :: q => q.takeWhile (fun c => !(c == '#'))
    | _ => []

/-- Splits a query field at its first `=` (Python `str.partition`). -/
def splitAtEq : List Char → Option (List Char × List Char)
  | [] => none
  | c :: cs =>
    if c = '=' then some ([], cs)
    else
      match splitAtEq cs with
      | none => none
      | some (k, v) => some (c :: k, v)

/-- `parse_qs(query).get("v")[0]`: the first `v=` field with a non-empty
value (`parse_qs` drops blank values by default and splits on `&`). -/
def parseQsV (q : List Char) : Option String :=
  ((splitOnCharF '&' q.length q).filterMap fun field =>
    match splitAtEq field with
    | none => none
    | some (k, v) => if k = "v".data ∧ v ≠ [] then some (⟨v⟩ : String) else none).head?

/-- `path.split("/")[2].split("?")[0]`. -/
def pathSeg2 (path : List Char) : List Char :=
  ((splitOnCharF '/' path.length path).getD 2 []).takeWhile (fun c => !(c == '?'))

/-- `_yt_id_from_url`. -/
def yt_id_from_url (url : String) : Option String :=
  if url = "" then none
  else if YOUTUBE_HOSTS.contains (urlHostname url) then
    let path := urlPath url
    if "/embed/".data.isPrefixOf path then some ⟨pathSeg2 path⟩
    else if "/shorts/".data.isPrefixOf path then some ⟨pathSeg2 path⟩
    else if "youtu.be".data.isSuffixOf (urlHostname url).data then
      some ⟨(path.dropWhile (fun c => c == '/')).takeWhile (fun c => !(c == '?'))⟩
    else if path = "/watch".data then parseQsV (urlQuery url)
    else none
  else none

/-! ## `hard_filter_forbidden_html` (`app/html_utils.py`)

Three passes, as in the source: (1) decompose the dangerous tag set
everywhere; (2) replace YouTube iframes (`if vid:` — a non-empty id) by a
`<p>` holding the canonical watch URL and decompose every other iframe;
(3) drop `on*` attributes and `javascript:` values of `href`/`src`. -/

def REMOVE_TAGS : List String :=
  ["script", "style", "noscript", "form", "input", "button", "select", "option",
   "textarea", "object", "embed", "svg", "canvas", "link", "meta"]

mutual
def removeTagsN : HNode → Option HNode
  | .text s => some (.text s)
  | .elem tag attrs cs =>
    if REMOVE_TAGS.contains tag then none
    else some (.elem tag attrs (removeTagsF cs))
def removeTagsF : HForest → HForest
  | .nil => .nil
  | .cons n rest =>
    match removeTagsN n with
    | some n' => .cons n' (removeTagsF rest)
    | none => removeTagsF rest
end

/-- `vid = _yt_id_from_url(src)` followed by Python truthiness
(`if vid:`): `None` and the empty string both fail. -/
def truthyYtId (src : String) : Option String :=
  match yt_id_from_url src with
  | some v => if v = "" then none else some v
  | none => none

/-- `(iframe.get("src") or "").strip()`. -/
def iframeSrc (attrs : List (String × String)) : String :=
  pyStripS ((getAttr attrs "src").getD "")

/-- The replacement paragraph `<p>https://www.youtube.com/watch?v=ID</p>`. -/
def ytWatchP (v : String) : HNode :=
  .elem "p" [] (.cons (.text ("https://www.youtube.com/watch?v=" ++ v)) .nil)

mutual
def filterIframesN : HNode → Option HNode
  | .text s => some (.text s)
  | .elem tag attrs cs =>
    if tag = "iframe" then
      match truthyYtId (iframeSrc attrs) with
      | some v => some (ytWatchP v)
      | none => none
    else some (.elem tag attrs (filterIframesF cs))
def filterIframesF : HForest → HForest
  | .nil => .nil
  | .cons n rest =>
    match filterIframesN n with
    | some n' => .cons n' (filterIframesF rest)
    | none => filterIframesF rest
end

/-- Attribute pass: drop names starting with `on` (case-insensitive) and
`href`/`src` attributes whose stripped value starts with `javascript:`
(case-insensitive). -/
def cleanAttrs (attrs : List (String × String)) : List (String × String) :=
  attrs.filter fun kv =>
    !(startsWithS (lowerS kv.1) "on")
      && !((kv.1 == "href" || kv.1 == "src")
            && startsWithS (lowerS (pyStripS kv.2)) "javascript:")

mutual
def stripAttrsN : HNode → HNode
  | .text s => .text s
  | .elem tag attrs cs => .elem tag (cleanAttrs attrs) (stripAttrsF cs)
def stripAttrsF : HForest → HForest
  | .nil => .nil
  | .cons n rest => .cons (stripAttrsN n) (stripAttrsF rest)
end

def hard_filter_forbidden_html (doc : HForest) : HForest :=
  stripAttrsF (filterIframesF (removeTagsF doc))

/-! Count of `<iframe>` elements. -/
mutual
def iframeCountN : HNode → ℕ
  | .text _ => 0
  | .elem tag _ cs => (if tag = "iframe" then 1 else 0) + iframeCountF cs
def iframeCountF : HForest → ℕ
  | .nil => 0
  | .cons n rest => iframeCountN n + iframeCountF rest
end

/-! ### C6 lemmas -/

theorem removeTagsF_happend : ∀ a b : HForest,
    removeTagsF (happend a b) = happend (removeTagsF a) (removeTagsF b)
  | .nil, b => rfl
  | .cons n rest, b => by
    show (match removeTagsN n with
      | some n' => HForest.cons n' (removeTagsF (happend rest b))
      | none => removeTagsF (happend rest b))
      = happend (match removeTagsN n with
        | some n' => HForest.cons n' (removeTagsF rest)
        | none => removeTagsF rest) (removeTagsF b)
    cases removeTagsN n with
    | some n' => rw [removeTagsF_happend rest b]; rfl
    | none => rw [removeTagsF_happend rest b]

theorem filterIframesF_happend : ∀ a b : HForest,
    filterIframesF (happend a b) = happend (filterIframesF a) (filterIframesF b)
  | .nil, b => rfl
  | .cons n rest, b => by
    show (match filterIframesN n with
      | some n' => HForest.cons n' (filterIframesF (happend rest b))
      | none => filterIframesF (happend rest b))
      = happend (match filterIframesN n with
        | some n' => HForest.cons n' (filterIframesF rest)
        | none => filterIframesF rest) (filterIframesF b)
    cases filterIframesN n with
    | some n' => rw [filterIframesF_happend rest b]; rfl
    | none => rw [filterIframesF_happend rest b]

theorem stripAttrsF_happend : ∀ a b : HForest,
    stripAttrsF (happend a b) = happend (stripAttrsF a) (stripAttrsF b)
  | .nil, b => rfl
  | .cons n rest, b => by
    show HForest.cons (stripAttrsN n) (stripAttrsF (happend rest b))
      = HForest.cons (stripAttrsN n) (happend (stripAttrsF rest) (stripAttrsF b))
    rw [stripAttrsF_happend rest b]

theorem hardFilter_happend (a b : HForest) :
    hard_filter_forbidden_html (happend a b)
      = happend (hard_filter_forbidden_html a) (hard_filter_forbidden_html b) := by
  unfold hard_filter_forbidden_html
  rw [removeTagsF_happend, filterIframesF_happend, stripAttrsF_happend]

theorem hardFilter_cons_iframe (attrs : List (String × String)) (cs rest : HForest) :
    hard_filter_forbidden_html (.cons (.elem "iframe" attrs cs) rest)
      = match truthyYtId (iframeSrc attrs) with
        | some v => .cons (ytWatchP v) (hard_filter_forbidden_html rest)
        | none => hard_filter_forbidden_html rest := by
  have h1 : removeTagsF (.cons (.elem "iframe" attrs cs) rest)
      = .cons (.elem "iframe" attrs (removeTagsF cs)) (removeTagsF rest) := rfl
  unfold hard_filter_forbidden_html
  rw [h1]
  have h2 : filterIframesF (.cons (.elem "iframe" attrs (removeTagsF cs)) (removeTagsF rest))
      = match truthyYtId (iframeSrc attrs) with
        | some v => .cons (ytWatchP v) (filterIframesF (removeTagsF rest))
        | none => filterIframesF (removeTagsF rest) := by
    show (match filterIframesN (.elem "iframe" attrs (removeTagsF cs)) with
      | some n' => HForest.cons n' (filterIframesF (removeTagsF rest))
      | none => filterIframesF (removeTagsF rest)) = _
    have h3 : filterIframesN (.elem "iframe" attrs (removeTagsF cs))
        = match truthyYtId (iframeSrc attrs) with
          | some v => some (ytWatchP v)
          | none => none := rfl
    rw [h3]
    cases truthyYtId (iframeSrc attrs) <;> rfl
  rw [h2]
  cases truthyYtId (iframeSrc attrs) with
  | some v =>
    show HForest.cons (stripAttrsN (ytWatchP v)) (stripAttrsF (filterIframesF (removeTagsF rest)))
      = HForest.cons (ytWatchP v) (stripAttrsF (filterIframesF (removeTagsF rest)))
    rfl
  | none => rfl

theorem ytId_none_of_host_not_allowed (u : String)
    (h : YOUTUBE_HOSTS.contains (urlHostname u) = false) :
    yt_id_from_url u = none := by
  unfold yt_id_from_url
  by_cases hu : u = ""
  · rw [if_pos hu]
  · rw [if_neg hu, if_neg (by rw [h]; simp)]

theorem truthyYtId_none_of_host (src : String)
    (h : YOUTUBE_HOSTS.contains (urlHostname src) = false) :
    truthyYtId src = none := by
  unfold truthyYtId
  rw [ytId_none_of_host_not_allowed src h]

mutual
theorem iframeCount_filterN : ∀ (n : HNode) (n' : HNode),
    filterIframesN n = some n' → iframeCountN n' = 0
  | .text s, n', h => by
    have hn' : n' = .text s := (Option.some.inj h).symm
    subst hn'
    rfl
  | .elem tag attrs cs, n', h => by
    by_cases htag : tag = "iframe"
    · subst htag
      have h3 : filterIframesN (.elem "iframe" attrs cs)
          = match truthyYtId (iframeSrc attrs) with
            | some v => some (ytWatchP v)
            | none => none := rfl
      rw [h3] at h
      cases htr : truthyYtId (iframeSrc attrs) with
      | some v =>
        rw [htr] at h
        have hn' : n' = ytWatchP v := (Option.some.inj h).symm
        subst hn'
        rfl
      | none =>
        rw [htr] at h
        exact absurd h (by simp)
    · have h3 : filterIframesN (.elem tag attrs cs)
          = if tag = "iframe" then
              (match truthyYtId (iframeSrc attrs) with
                | some v => some (ytWatchP v)
                | none => none)
            else some (.elem tag attrs (filterIframesF cs)) := rfl
      rw [h3, if_neg htag] at h
      have hn' : n' = .elem tag attrs (filterIframesF cs) := (Option.some.inj h).symm
      subst hn'
      show (if tag = "iframe" then 1 else 0) + iframeCountF (filterIframesF cs) = 0
      rw [if_neg htag, iframeCount_filterF cs]
theorem iframeCount_filterF : ∀ f : HForest, iframeCountF (filterIframesF f) = 0
  | .nil => rfl
  | .cons n rest => by
    show iframeCountF (match filterIframesN n with
      | some n' => HForest.cons n' (filterIframesF rest)
      | none => filterIframesF rest) = 0
    cases hn : filterIframesN n with
    | some n' =>
      show iframeCountN n' + iframeCountF (filterIframesF rest) = 0
      rw [iframeCount_filterN n n' hn, iframeCount_filterF rest]
    | none => exact iframeCount_filterF rest
end

mutual
theorem iframeCount_stripN : ∀ n : HNode, iframeCountN (stripAttrsN n) = iframeCountN n
  | .text _ => rfl
  | .elem tag attrs cs => by
    show (if tag = "iframe" then 1 else 0) + iframeCountF (stripAttrsF cs)
      = (if tag = "iframe" then 1 else 0) + iframeCountF cs
    rw [iframeCount_stripF cs]
theorem iframeCount_stripF : ∀ f : HForest, iframeCountF (stripAttrsF f) = iframeCountF f
  | .nil => rfl
  | .cons n rest => by
    show iframeCountN (stripAttrsN n) + iframeCountF (stripAttrsF rest)
      = iframeCountN n + iframeCountF rest
    rw [iframeCount_stripN n, iframeCount_stripF rest]
end

theorem iframeCount_hardFilter (d : HForest) :
    iframeCountF (hard_filter_forbidden_html d) = 0 := by
  unfold hard_filter_forbidden_html
  rw [iframeCount_stripF, iframeCount_filterF]

/-! ### C6 -/

/-- C6: in any sibling context, an iframe whose `src` is
`https://www.youtube.com/embed/abc123?x=1` is replaced by exactly the
text `https://www.youtube.com/watch?v=abc123` (inside a single `<p>`,
with no other change), an iframe whose source host is not on the video
allow-list is removed entirely with no replacement, and the sanitizer's
output never contains an iframe element. -/
theorem c6_embed_normalization (l r cs : HForest) (attrs : List (String × String)) :
    (getAttr attrs "src" = some "https://www.youtube.com/embed/abc123?x=1" →
      hard_filter_forbidden_html (happend l (.cons (.elem "iframe" attrs cs) r))
        = happend (hard_filter_forbidden_html l)
            (.cons (.elem "p" [] (.cons (.text "https://www.youtube.com/watch?v=abc123") .nil))
              (hard_filter_forbidden_html r)))
    ∧ (∀ src, getAttr attrs "src" = some src →
        YOUTUBE_HOSTS.contains (urlHostname (pyStripS src)) = false →
        hard_filter_forbidden_html (happend l (.cons (.elem "iframe" attrs cs) r))
          = happend (hard_filter_forbidden_html l) (hard_filter_forbidden_html r))
    ∧ (∀ d : HForest, iframeCountF (hard_filter_forbidden_html d) = 0) := by
  refine ⟨?_, ?_, iframeCount_hardFilter⟩
  · intro hsrc
    have hif : iframeSrc attrs = "https://www.youtube.com/embed/abc123?x=1" := by
      unfold iframeSrc
      rw [hsrc]
      decide
    have hty : truthyYtId "https://www.youtube.com/embed/abc123?x=1" = some "abc123" := by
      decide
    rw [hardFilter_happend l (.cons (.elem "iframe" attrs cs) r),
      hardFilter_cons_iframe attrs cs r, hif, hty]
    rfl
  · intro src hsrc hhost
    have hif : iframeSrc attrs = pyStripS src := by
      unfold iframeSrc
      rw [hsrc]
      rfl
    have hty : truthyYtId (pyStripS src) = none := truthyYtId_none_of_host (pyStripS src) hhost
    rw [hardFilter_happend l (.cons (.elem "iframe" attrs cs) r),
      hardFilter_cons_iframe attrs cs r, hif, hty]

/-- C6 witness: the concrete YouTube embed becomes exactly the watch-URL
text with no iframe left, and a Vimeo embed is dropped with nothing left
behind. -/
theorem c6_embed_witness :
    hard_filter_forbidden_html
      (.cons (.elem "iframe" [("src", "https://www.youtube.com/embed/abc123?x=1")] .nil) .nil)
      = .cons (.elem "p" [] (.cons (.text "https://www.youtube.com/watch?v=abc123") .nil)) .nil
    ∧ hard_filter_forbidden_html
        (.cons (.elem "iframe" [("src", "https://player.vimeo.com/video/123")] .nil) .nil)
      = .nil := by
  constructor
  · exact (c6_embed_normalization .nil .nil .nil
      [("src", "https://www.youtube.com/embed/abc123?x=1")]).1 rfl
  · exact (c6_embed_normalization .nil .nil .nil
      [("src", "https://player.vimeo.com/video/123")]).2.1
      "https://player.vimeo.com/video/123" rfl (by decide)

/-! ## `ContentExtractor._remove_forbidden_blocks` (`app/extractor.py`)

Three passes over the extracted article tree:

1. decompose the parent of any string whose stripped text is exactly a
   forbidden phrase;
2. "infobox" detection: for each `div`/`section`/`aside`/`ul`/`ol`, take
   `" ".join(tag.get_text(separator="\n").split())` — which collapses
   every whitespace run (including the just-inserted newlines) to single
   spaces — and count the labels matching the regex
   `(^|\n)\s*LABEL\s*(\n|:|$)` (case-insensitive, no MULTILINE flag, so
   `^` is the string start only); decompose the container when at least
   two labels match;
3. decompose `p`/`li`/`span`/`h3`/`h4` elements whose text, stripped,
   right-stripped of colons and stripped again, is exactly a forbidden
   phrase or label.

The regex is embedded as a search over candidate start positions (the
string start or any position after a newline): skip whitespace, match the
label case-insensitively, then `\s*(\n|:|$)` — a colon as the next
non-whitespace character, a newline inside the following whitespace run,
or only whitespace to the end. -/

def FORBIDDEN_TEXT_EXACT : List String := ["Your comment has not been saved"]

def FORBIDDEN_LABELS : List String :=
  ["Release Date", "Runtime", "Director", "Directors", "Writer", "Writers",
   "Producer", "Producers", "Cast"]

/-! All descendant strings of a node / forest in document order
(`get_text(separator=sep)` joins them with `sep`). -/
mutual
def textsN : HNode → List String
  | .text s => [s]
  | .elem _ _ cs => textsF cs
def textsF : HForest → List String
  | .nil => []
  | .cons n rest => textsN n ++ textsF rest
end

/-- `" ".join(s.split())`. -/
def collapseWs (cs : List Char) : List Char := joinSep [' '] (splitWsF cs.length cs)

/-- `tag.get_text(separator="\n")` over the children forest. -/
def getTextNl (cs : HForest) : List Char :=
  joinSep ['\n'] ((textsF cs).map String.data)

/-- Case-insensitive literal match of `lbl` as a prefix. -/
def icPrefix : List Char → List Char → Bool
  | [], _ => true
  | _ :: _, [] => false
  | p :: ps, c :: cs => (p.toLower == c.toLower) && icPrefix ps cs

/-- `\s*(\n|:|$)` on what follows the label. -/
def afterOk (rest : List Char) : Bool :=
  (rest.takeWhile isPySpace).contains '\n'
    || (match rest.dropWhile isPySpace with
        | [] => true
        | c :: _ => c == ':')

/-- `\s*LABEL\s*(\n|:|$)` at one candidate position. -/
def labelMatchAt (lbl cs : List Char) : Bool :=
  icPrefix lbl (cs.dropWhile isPySpace) && afterOk ((cs.dropWhile isPySpace).drop lbl.length)

def labelSearchTail (lbl : List Char) : List Char → Bool
  | [] => false
  | c :: cs => ((c == '\n') && labelMatchAt lbl cs) || labelSearchTail lbl cs

/-- `re.search(rf"(^|\n)\s*LABEL\s*(\n|:|$)", text, flags=re.I)`. -/
def labelSearch (lbl cs : List Char) : Bool := labelMatchAt lbl cs || labelSearchTail lbl cs

/-- `sum(1 for lbl in FORBIDDEN_LABELS if re.search(..., text))`. -/
def labelCount (cs : List Char) : ℕ :=
  (FORBIDDEN_LABELS.filter (fun lbl => labelSearch lbl.data cs)).length

/-- A direct child string whose stripped text is a forbidden phrase
(pass 1 removes the string's parent element; a top-level string's parent
is the document body itself, which the claims never exercise). -/
def hasForbiddenString : HForest → Bool
  | .nil => false
  | .cons (.text s) rest =>
    FORBIDDEN_TEXT_EXACT.contains (pyStripS s) || hasForbiddenString rest
  | .cons (.elem _ _ _) rest => hasForbiddenString rest

mutual
def removeExactN : HNode → Option HNode
  | .text s => some (.text s)
  | .elem tag attrs cs =>
    if hasForbiddenString cs then none
    else some (.elem tag attrs (removeExactF cs))
def removeExactF : HForest → HForest
  | .nil => .nil
  | .cons n rest =>
    match removeExactN n with
    | some n' => .cons n' (removeExactF rest)
    | none => removeExactF rest
end

def INFOBOX_TAGS : List String := ["div", "section", "aside", "ul", "ol"]

mutual
def removeInfoboxN : HNode → Option HNode
  | .text s => some (.text s)
  | .elem tag attrs cs =>
    if INFOBOX_TAGS.contains tag && decide (2 ≤ labelCount (collapseWs (getTextNl cs)))
    then none
    else some (.elem tag attrs (removeInfoboxF cs))
def removeInfoboxF : HForest → HForest
  | .nil => .nil
  | .cons n rest =>
    match removeInfoboxN n with
    | some n' => .cons n' (removeInfoboxF rest)
    | none => removeInfoboxF rest
end

def LEAF_TAGS : List String := ["p", "li", "span", "h3", "h4"]

/-- `(tag.get_text() or "").strip().rstrip(':').strip()`. -/
def leafCleanText (cs : HForest) : String :=
  ⟨pyStrip (((pyStrip (joinSep [] ((textsF cs).map String.data))).reverse.dropWhile
      (fun c => c == ':')).reverse)⟩

mutual
def removeLeafN : HNode → Option HNode
  | .text s => some (.text s)
  | .elem tag attrs cs =>
    if LEAF_TAGS.contains tag
        && (FORBIDDEN_TEXT_EXACT.contains (leafCleanText cs)
            || FORBIDDEN_LABELS.contains (leafCleanText cs))
    then none
    else some (.elem tag attrs (removeLeafF cs))
def removeLeafF : HForest → HForest
  | .nil => .nil
  | .cons n rest =>
    match removeLeafN n with
    | some n' => .cons n' (removeLeafF rest)
    | none => removeLeafF rest
end

def remove_forbidden_blocks (doc : HForest) : HForest :=
  removeLeafF (removeInfoboxF (removeExactF doc))

/-! ### C7 -/

/-- C7 (code bug): a `ul` infobox whose two list items carry the
forbidden labels `Release Date` and `Director` as label-like lines is
NOT removed — collapsing whitespace before running the newline-anchored
regex leaves only the string start as a candidate position, so the label
count is 1, below the removal threshold of 2.  The leaf rule still works:
a `li` whose entire text is exactly `Director` is removed. -/
theorem c7_infobox_removal_never_fires :
    remove_forbidden_blocks
      (.cons (.elem "ul" []
        (.cons (.elem "li" [] (.cons (.text "Release Date: 2024") .nil))
          (.cons (.elem "li" [] (.cons (.text "Director: Jane Doe") .nil)) .nil))) .nil)
      = .cons (.elem "ul" []
        (.cons (.elem "li" [] (.cons (.text "Release Date: 2024") .nil))
          (.cons (.elem "li" [] (.cons (.text "Director: Jane Doe") .nil)) .nil))) .nil
    ∧ labelCount (collapseWs
        (joinSep ['\n'] ["Release Date: 2024".data, "Director: Jane Doe".data])) = 1
    ∧ remove_forbidden_blocks (.cons (.elem "li" [] (.cons (.text "Director") .nil)) .nil)
      = .nil := by
  refine ⟨rfl, by decide, rfl⟩
